import Mathlib

/-!
A shallow embedding of the core of `promised-db` (src/src/promised-db.ts),
a promise-based wrapper around an asynchronous versioned key-value store
engine (IndexedDB).  The embedding covers:

* the migration-list upgrade closure and the open/upgrade negotiation
  (`PromisedDB` constructor, current version, lines 368-429);
* the bulk materialization loop of `_getAll` / `_getAllKeys`
  (legacy version, lines 171-215);
* the cursor event dispatch of `cursorImpl` (lines 305-341);
* the transaction executor with its timeout race
  (`PromisedDB.transaction`, lines 491-527), modelled as a small-step
  event machine over the closure state (`timeoutID`, `timedOut`, the
  result promise) together with the host timer set and the engine's
  transaction phase.

Asynchronous behaviour is modelled by explicit event traces: the host
may deliver any event whose guard (`enabled`) holds, and the JS handler
code run in response to each event is translated statement by statement
into the `step` function.  Real-time durations are abstracted away: the
expiry of an armed timer is a nondeterministic `fire` event, which may
occur at any point while the timer is armed.
-/

namespace PromisedDB

/-! ## Migration-list upgrade and the open protocol -/

/-- Errors of the open/upgrade protocol.  `versionMismatch` is the
`DOMException` with name `VersionError` thrown by the migration-list
upgrade closure when the presented version is out of bounds;
`engineVersionError` is the engine-level error produced when the on-disk
version exceeds the requested version. -/
inductive OpenError where
  | versionMismatch
  | engineVersionError
deriving DecidableEq

/-- The body of the while loop of the migration-list upgrade closure:
`while (migrationVersion < version) { migrations[migrationVersion++](db); }`
applies the migrations with index `v, v+1, …, migs.length - 1`, in
ascending index order, to the database.  A migration mutates the
database in place in JS; here it is a function on the database state. -/
def runMigrationsFrom (migs : List (α → α)) (v : Nat) (db : α) : α :=
  (migs.drop v).foldl (fun d m => m d) db

/-- The upgrade closure built by the `PromisedDB` constructor from a
migration list (`version = migrations.length`):
if `migrationVersion < 0 || migrationVersion >= version` it throws a
`VersionError` `DOMException`, otherwise it runs the while loop.  The
version presented by the engine is modelled as an `Int` so that the
`< 0` guard of the JS number is kept. -/
def upgradeClosure (migs : List (α → α)) (v : Int) (db : α) : Except OpenError α :=
  if v < 0 ∨ (migs.length : Int) ≤ v then
    .error .versionMismatch
  else
    .ok (runMigrationsFrom migs v.toNat db)

/-- The engine's open protocol (IndexedDB `indexedDB.open(name, version)`,
spec section 4.1 / 6), for an abstract upgrade routine: if the on-disk
version exceeds the requested target the open fails with an engine
version error; if it is below the target the engine grants the upgrade
transaction and runs the upgrade routine with the on-disk version, and a
failure of the upgrade routine fails the whole open request
(`req.onerror` / `db.onerror` reject the database promise); if the
versions are equal the open succeeds without any upgrade. -/
def openWithUpgrade (upgrade : Int → α → Except OpenError α)
    (target onDisk : Nat) (db : α) : Except OpenError α :=
  if target < onDisk then .error .engineVersionError
  else if onDisk < target then upgrade (onDisk : Int) db
  else .ok db

/-- Opening a database built from a migration list: the open protocol
with the constructor's upgrade closure and `target = migrations.length`. -/
def openDB (migs : List (α → α)) (onDisk : Nat) (db : α) : Except OpenError α :=
  openWithUpgrade (upgradeClosure migs) migs.length onDisk db

/-- Instrumented migration list used to observe which migrations run:
the database state is the log of executed migration indices, and
migration `i` appends `i` to the log. -/
def tagMigs (n : Nat) : List (List Nat → List Nat) :=
  (List.range n).map (fun i log => log ++ [i])

theorem foldl_tagMigs (ms : List Nat) (l : List Nat) :
    (ms.map (fun i log => log ++ [i])).foldl (fun d m => m d) l = l ++ ms := by
  induction ms generalizing l with
  | nil => simp
  | cons m ms ih => simp [ih]

theorem drop_range_eq (n v : Nat) (h : v ≤ n) :
    (List.range n).drop v = List.range' v (n - v) := by
  have h2 : (n - v) + v = n := by omega
  have h1 : List.range' 0 v ++ List.range' v (n - v) = List.range' 0 n := by
    have h3 := List.range'_append_1 0 v (n - v)
    simpa [h2] using h3
  rw [List.range_eq_range', ← h1]
  exact List.drop_left' (by simp)

theorem runMigrationsFrom_tagMigs (n v : Nat) (l : List Nat) (h : v ≤ n) :
    runMigrationsFrom (tagMigs n) v l = l ++ List.range' v (n - v) := by
  unfold runMigrationsFrom tagMigs
  rw [← List.map_drop, drop_range_eq n v h, foldl_tagMigs]

theorem openDB_runs_suffix (migs : List (α → α)) (v : Nat) (db : α)
    (h : v ≤ migs.length) :
    openDB migs v db = .ok (runMigrationsFrom migs v db) := by
  unfold openDB openWithUpgrade upgradeClosure
  rcases Nat.lt_or_ge v migs.length with hv | hv
  · rw [if_neg (by omega), if_pos hv, if_neg (by omega)]
    simp
  · have hev : v = migs.length := Nat.le_antisymm h hv
    subst hev
    rw [if_neg (by omega), if_neg (by omega)]
    unfold runMigrationsFrom
    simp

/-- C2: opening a database built from a migration list of length `N` at
on-disk version `v ≤ N` runs exactly the migrations with index in
`[v, N)`, in ascending index order, each exactly once (the executed-index
log is `List.range' v (N - v)`, which is sorted, duplicate-free and
contains precisely the indices `v ≤ i < N`); a fresh database (`v = 0`)
runs all `N` migrations and reopening at the target version (`v = N`)
runs zero migrations. -/
theorem openDB_migration_log (N v : Nat) (h : v ≤ N) :
    openDB (tagMigs N) v [] = .ok (List.range' v (N - v))
    ∧ (∀ i, i ∈ List.range' v (N - v) ↔ v ≤ i ∧ i < N)
    ∧ List.Sorted (· < ·) (List.range' v (N - v))
    ∧ (List.range' v (N - v)).Nodup
    ∧ (v = 0 → List.range' v (N - v) = List.range N)
    ∧ (v = N → List.range' v (N - v) = []) := by
  refine ⟨?_, ?_, ?_, ?_, ?_, ?_⟩
  · rw [openDB_runs_suffix _ _ _ (by simpa [tagMigs] using h),
      runMigrationsFrom_tagMigs N v [] h]
    simp
  · intro i
    rw [List.mem_range'_1]
    omega
  · exact List.pairwise_lt_range' v (N - v)
  · exact List.nodup_range' v (N - v)
  · intro h0
    subst h0
    simp [List.range_eq_range']
  · intro hN
    subst hN
    simp

/-- Witness for `openDB_migration_log` at `N = 3`, `v = 1`. -/
theorem openDB_migration_log_witness :
    openDB (tagMigs 3) 1 [] = .ok (List.range' 1 2) :=
  (openDB_migration_log 3 1 (by decide)).1

/-- C6: if the version presented to the migration-list upgrade routine
lies outside `[0, target)` the upgrade fails with the version-mismatch
error, and whenever the upgrade routine invoked by the open protocol
fails, the open request as a whole fails with that same error (no
success value is produced). -/
theorem upgrade_out_of_bounds (migs : List (α → α)) (v : Int) (db : α)
    (hout : v < 0 ∨ (migs.length : Int) ≤ v) :
    upgradeClosure migs v db = .error .versionMismatch
    ∧ ∀ (upgrade : Int → α → Except OpenError α) (target onDisk : Nat)
        (db' : α) (err : OpenError), onDisk < target →
        upgrade (onDisk : Int) db' = .error err →
        openWithUpgrade upgrade target onDisk db' = .error err := by
  constructor
  · unfold upgradeClosure
    simp only [if_pos hout]
  · intro upgrade target onDisk db' err hlt hup
    unfold openWithUpgrade
    rw [if_neg (by omega), if_pos hlt, hup]

/-- Witness for `upgrade_out_of_bounds`: a two-migration list presented
with version 5. -/
theorem upgrade_out_of_bounds_witness :
    upgradeClosure (tagMigs 2) 5 [] = .error .versionMismatch :=
  (upgrade_out_of_bounds (tagMigs 2) 5 [] (by norm_num [tagMigs])).1

/-! ## Bulk materialization: the getAll / getAllKeys drain loop

`_getAll` (and `_getAllKeys`, which differs only in pushing
`cur.primaryKey` instead of `cur.value`) drives a cursor:

  .next(cur => \x7b result.push(item);
               if (limit && (result.length === limit)) resolve(result);
               else cur.continue(); \x7d)
  .complete(() => resolve(result))

The items the cursor would deliver, in iteration order, are modelled as
a list; the loop is modelled record by record, returning the resolved
array together with the number of `cur.continue()` calls issued (no
`continue` is issued for a record once the limit check resolves, so the
scan stops there). -/

/-- The JS guard `limit && (result.length === limit)`: `limit` is an
optional number (`undefined` is falsy, and so is `0`), conjoined with
the length comparison. -/
def limitHit (limit : Option Nat) (len : Nat) : Bool :=
  match limit with
  | none => false
  | some l => !(l == 0) && (len == l)

/-- One run of the `_getAll` / `_getAllKeys` cursor-driving loop, with
accumulator `acc` (the `result` array) and `rs` the items the cursor
would still deliver in iteration order.  Returns the array the promise
resolves with and the number of `cur.continue()` calls issued. -/
def drainCursor (limit : Option Nat) (acc : List V) : List V → List V × Nat
  | [] => (acc, 0)
  | r :: rest =>
    let acc2 := acc ++ [r]
    if limitHit limit acc2.length then (acc2, 0)
    else
      let res := drainCursor limit acc2 rest
      (res.1, res.2 + 1)

/-- `_getAll` / `_getAllKeys` over a range whose cursor delivers the
items `rs` in iteration order: the drain loop started with an empty
`result` array. -/
def getAllModel (limit : Option Nat) (rs : List V) : List V × Nat :=
  drainCursor limit [] rs

theorem drainCursor_none (rs acc : List V) :
    drainCursor none acc rs = (acc ++ rs, rs.length) := by
  induction rs generalizing acc with
  | nil => simp [drainCursor]
  | cons r rest ih => simp [drainCursor, limitHit, ih]

theorem drainCursor_zero (rs acc : List V) :
    drainCursor (some 0) acc rs = drainCursor none acc rs := by
  induction rs generalizing acc with
  | nil => rfl
  | cons r rest ih => simp [drainCursor, limitHit, ih]

theorem drainCursor_cons (limit : Option Nat) (acc : List V) (r : V)
    (rest : List V) :
    drainCursor limit acc (r :: rest)
      = if limitHit limit (acc ++ [r]).length then (acc ++ [r], 0)
        else ((drainCursor limit (acc ++ [r]) rest).1,
              (drainCursor limit (acc ++ [r]) rest).2 + 1) := rfl

theorem drainCursor_hit (K : Nat) (rs acc : List V)
    (hacc : acc.length < K) (hlen : K ≤ acc.length + rs.length) :
    drainCursor (some K) acc rs
      = (acc ++ rs.take (K - acc.length), K - acc.length - 1) := by
  induction rs generalizing acc with
  | nil =>
    simp only [List.length_nil] at hlen
    omega
  | cons r rest ih =>
    simp only [List.length_cons] at hlen
    have hlap : (acc ++ [r]).length = acc.length + 1 := by simp
    by_cases hK : acc.length + 1 = K
    · have hK0 : K ≠ 0 := by omega
      have hhit : limitHit (some K) (acc ++ [r]).length = true := by
        rw [hlap, hK]
        simp [limitHit, hK0]
      have htake : K - acc.length = 1 := by omega
      rw [drainCursor_cons, if_pos hhit, htake]
      simp
    · have hmiss : limitHit (some K) (acc.length + 1) = false := by
        simp [limitHit, hK]
      have h1 : (acc ++ [r]).length < K := by rw [hlap]; omega
      have h2 : K ≤ (acc ++ [r]).length + rest.length := by
        rw [hlap]
        omega
      have htake : K - acc.length = (K - (acc.length + 1)) + 1 := by omega
      rw [drainCursor_cons, if_neg (by simp [hmiss]), ih (acc ++ [r]) h1 h2,
        htake, List.take_succ_cons, Prod.mk.injEq, hlap]
      constructor
      · rw [List.append_assoc]
        rfl
      · omega

theorem drainCursor_small (K : Nat) (rs acc : List V)
    (h : acc.length + rs.length < K) :
    drainCursor (some K) acc rs = (acc ++ rs, rs.length) := by
  induction rs generalizing acc with
  | nil => simp [drainCursor]
  | cons r rest ih =>
    simp only [List.length_cons] at h
    have hlap : (acc ++ [r]).length = acc.length + 1 := by simp
    have hmiss : limitHit (some K) (acc.length + 1) = false := by
      simp only [limitHit, Bool.and_eq_false_iff, beq_eq_false_iff_ne, ne_eq]
      right
      omega
    have h2 : (acc ++ [r]).length + rest.length < K := by
      rw [hlap]
      omega
    rw [drainCursor_cons, if_neg (by simp [hmiss]), ih (acc ++ [r]) h2,
      Prod.mk.injEq]
    constructor
    · rw [List.append_assoc]
      rfl
    · simp

/-- C9: `_getAll` / `_getAllKeys` with a positive limit `K` over a
range holding at least `K` records resolves with exactly the first `K`
records in cursor iteration order and issues only `K - 1` advance
requests (the advances preceding records `2 … K`), so no advance is
requested after the `K`-th record is collected; with no limit, or with
fewer than `K` records in the range, it resolves with all records in
iteration order (driving the cursor once per record, to exhaustion). -/
theorem getAll_limit (V : Type) (rs : List V) (K : Nat) (hK : 0 < K) :
    (K ≤ rs.length → getAllModel (some K) rs = (rs.take K, K - 1))
    ∧ (rs.length < K → getAllModel (some K) rs = (rs, rs.length))
    ∧ getAllModel (none : Option Nat) rs = (rs, rs.length) := by
  refine ⟨?_, ?_, ?_⟩
  · intro hlen
    unfold getAllModel
    rw [drainCursor_hit K rs [] (by simpa using hK) (by simpa using hlen)]
    simp
  · intro hlen
    unfold getAllModel
    rw [drainCursor_small K rs [] (by simpa using hlen)]
    simp
  · unfold getAllModel
    rw [drainCursor_none]
    simp

/-- Witness for `getAll_limit`: limit 2 over a 3-record range yields
the first two records with a single advance request. -/
theorem getAll_limit_witness :
    getAllModel (some 2) [10, 20, 30] = ([10, 20], 1) := by
  have h := (getAll_limit Nat [10, 20, 30] 2 (by decide)).1 (by decide)
  simpa using h

/-- C10: a limit of `0` is falsy in the JS guard
`limit && (result.length === limit)`, so `_getAll` / `_getAllKeys`
called with limit `0` behaves exactly as with no limit at all: the
cursor is driven to exhaustion and the promise resolves with all
records of the range in iteration order, not with an empty sequence. -/
theorem getAll_limit_zero (V : Type) (rs : List V) :
    getAllModel (some 0) rs = getAllModel (none : Option Nat) rs
    ∧ getAllModel (some 0) rs = (rs, rs.length) := by
  constructor
  · unfold getAllModel
    rw [drainCursor_zero]
  · unfold getAllModel
    rw [drainCursor_zero, drainCursor_none]
    simp

/-! ## Cursor iteration: the cursorImpl event dispatch

`cursorImpl` builds a `PDBCursorBuilder` with three optional handler
slots (`callbackFn_`, `completeFn_`, `errorFn_`) filled in by the
registration methods `next` / `complete` / `catch`, and installs two
engine event handlers on the cursor request:

  onsuccess: if the delivered cursor is present, call `callbackFn_` (if
  registered); otherwise call `completeFn_` (if registered);
  onerror: call `errorFn_` (if registered).

Handler slots are modelled by their presence (a registered handler per
slot); the dispatch is modelled as the list of handler invocations each
engine event produces. -/

/-- The handler slots of a `PDBCursorBuilder`: whether each of
`callbackFn_`, `completeFn_` and `errorFn_` has been registered. -/
structure CursorSlots where
  callbackFn_ : Bool
  completeFn_ : Bool
  errorFn_ : Bool
deriving DecidableEq

/-- A builder with no handlers registered (the record literal built at
the start of `cursorImpl`). -/
def CursorSlots.empty : CursorSlots := ⟨false, false, false⟩

/-- The registration method `next(callback)`: sets `callbackFn_` (last
registration wins) and returns the builder. -/
def CursorSlots.next (b : CursorSlots) : CursorSlots :=
  { b with callbackFn_ := true }

/-- The registration method `complete(callback)`: sets `completeFn_`. -/
def CursorSlots.complete (b : CursorSlots) : CursorSlots :=
  { b with completeFn_ := true }

/-- The registration method `catch(callback)`: sets `errorFn_`. -/
def CursorSlots.catchFn (b : CursorSlots) : CursorSlots :=
  { b with errorFn_ := true }

/-- An event the engine delivers on a cursor request: a success event
carrying the cursor (`some pos` while positions remain, `none` once the
range is exhausted — `cursorReq.result` is then null), or an error
event carrying `cursorReq.error`. -/
inductive CursorEvent (κ ε : Type) where
  | success (pos : Option κ)
  | failure (e : ε)
deriving DecidableEq

/-- One invocation of a registered handler of the builder. -/
inductive CursorCall (κ ε : Type) where
  | advance (pos : κ)
  | exhausted
  | failed (e : ε)
deriving DecidableEq

/-- The dispatch installed by `cursorImpl` (`cursorReq.onsuccess` /
`cursorReq.onerror`), as the list of handler invocations one engine
event produces. -/
def dispatchEvent (b : CursorSlots) : CursorEvent κ ε → List (CursorCall κ ε)
  | .success (some pos) => if b.callbackFn_ then [.advance pos] else []
  | .success none => if b.completeFn_ then [.exhausted] else []
  | .failure e => if b.errorFn_ then [.failed e] else []

/-- The handler invocations produced by a whole sequence of engine
events, in delivery order. -/
def dispatchTrace (b : CursorSlots) (evs : List (CursorEvent κ ε)) :
    List (CursorCall κ ε) :=
  match evs with
  | [] => []
  | e :: rest => dispatchEvent b e ++ dispatchTrace b rest

/-- A terminal cursor event: an exhaustion notice (success with no
cursor) or an error.  After either, the engine delivers no further
events on the request. -/
def terminalEv : CursorEvent κ ε → Bool
  | .success (some _) => false
  | .success none => true
  | .failure _ => true

/-- Engine delivery discipline for one cursor request: every event
before the last one is a non-terminal success (the engine stops after
an exhaustion notice or an error). -/
def engineOk : List (CursorEvent κ ε) → Bool
  | [] => true
  | [_] => true
  | e :: rest => !(terminalEv e) && engineOk rest

def isExhaustedCall : CursorCall κ ε → Bool
  | .exhausted => true
  | _ => false

def isFailedCall : CursorCall κ ε → Bool
  | .failed _ => true
  | _ => false

theorem engineOk_cons (e : CursorEvent κ ε) (rest : List (CursorEvent κ ε))
    (h : engineOk (e :: rest) = true) (hne : rest ≠ []) :
    terminalEv e = false ∧ engineOk rest = true := by
  match rest, hne with
  | r :: rs, _ =>
    simp only [engineOk, Bool.and_eq_true, Bool.not_eq_eq_eq_not,
      Bool.not_true] at h
    exact h

theorem dispatchTrace_exhausted_of_end (b : CursorSlots)
    (evs : List (CursorEvent κ ε)) (hok : engineOk evs = true)
    (hmem : CursorEvent.success (none : Option κ) ∈ evs)
    (hc : b.completeFn_ = true) :
    (dispatchTrace b evs).countP (fun c => isExhaustedCall c) = 1
    ∧ (dispatchTrace b evs).countP (fun c => isFailedCall c) = 0 := by
  induction evs with
  | nil => simp at hmem
  | cons e rest ih =>
    by_cases hrest : rest = []
    · subst hrest
      simp only [List.mem_singleton] at hmem
      subst hmem
      simp [dispatchTrace, dispatchEvent, hc, isExhaustedCall, isFailedCall]
    · obtain ⟨hterm, hok2⟩ := engineOk_cons e rest hok hrest
      have hmem2 : CursorEvent.success (none : Option κ) ∈ rest := by
        rcases List.mem_cons.mp hmem with he | hr
        · rw [← he] at hterm
          simp [terminalEv] at hterm
        · exact hr
      obtain ⟨ih1, ih2⟩ := ih hok2 hmem2
      match e, hterm with
      | .success (some pos), _ =>
        simp only [dispatchTrace, dispatchEvent, List.countP_append]
        constructor
        · rw [ih1]
          cases hcb : b.callbackFn_ <;>
            simp [isExhaustedCall]
        · rw [ih2]
          cases hcb : b.callbackFn_ <;>
            simp [isFailedCall]

theorem dispatchTrace_failed_le_one (b : CursorSlots)
    (evs : List (CursorEvent κ ε)) (hok : engineOk evs = true) :
    (dispatchTrace b evs).countP (fun c => isFailedCall c) ≤ 1 := by
  induction evs with
  | nil => simp [dispatchTrace]
  | cons e rest ih =>
    by_cases hrest : rest = []
    · subst hrest
      match e with
      | .success (some pos) =>
        cases hcb : b.callbackFn_ <;>
          simp [dispatchTrace, dispatchEvent, hcb, isFailedCall]
      | .success none =>
        cases hcb : b.completeFn_ <;>
          simp [dispatchTrace, dispatchEvent, hcb, isFailedCall]
      | .failure err =>
        cases hcb : b.errorFn_ <;>
          simp [dispatchTrace, dispatchEvent, hcb, isFailedCall]
    · obtain ⟨hterm, hok2⟩ := engineOk_cons e rest hok hrest
      match e, hterm with
      | .success (some pos), _ =>
        simp only [dispatchTrace, dispatchEvent, List.countP_append]
        have h0 : ∀ l : List (CursorCall κ ε),
            (if b.callbackFn_ then [CursorCall.advance pos] else l.take 0).countP
              (fun c => isFailedCall c) = 0 := by
          intro l
          cases hcb : b.callbackFn_ <;> simp [isFailedCall]
        calc (if b.callbackFn_ then [CursorCall.advance pos]
                else [].take 0).countP (fun c => isFailedCall c)
              + (dispatchTrace b rest).countP (fun c => isFailedCall c)
            = 0 + (dispatchTrace b rest).countP (fun c => isFailedCall c) := by
              rw [h0 []]
          _ ≤ 1 := by simpa using ih hok2

/-- C8: cursor event dispatch.  Each engine success event carrying a
cursor position invokes only the registered advance (`next`) handler,
at most once for that position, and never the complete handler; in an
engine-disciplined event sequence that reaches exhaustion (a success
event with no cursor), the complete handler fires exactly once and the
error handler never fires; and in any engine-disciplined event
sequence, the error handler fires at most once. -/
theorem cursor_dispatch (b : CursorSlots) (evs : List (CursorEvent κ ε))
    (hok : engineOk evs = true) (hc : b.completeFn_ = true) :
    (∀ pos : κ,
      (dispatchEvent b (CursorEvent.success (some pos) : CursorEvent κ ε)).countP
        (fun c => isExhaustedCall c) = 0
      ∧ (dispatchEvent b (CursorEvent.success (some pos) : CursorEvent κ ε)).countP
        (fun c => isFailedCall c) = 0
      ∧ (dispatchEvent b (CursorEvent.success (some pos) : CursorEvent κ ε)).length ≤ 1
      ∧ ∀ c ∈ dispatchEvent b (CursorEvent.success (some pos) : CursorEvent κ ε),
          c = .advance pos)
    ∧ (CursorEvent.success (none : Option κ) ∈ evs →
        (dispatchTrace b evs).countP (fun c => isExhaustedCall c) = 1
        ∧ (dispatchTrace b evs).countP (fun c => isFailedCall c) = 0)
    ∧ (dispatchTrace b evs).countP (fun c => isFailedCall c) ≤ 1 := by
  refine ⟨?_, ?_, ?_⟩
  · intro pos
    refine ⟨?_, ?_, ?_, ?_⟩
    · cases hcb : b.callbackFn_ <;>
        simp [dispatchEvent, hcb, isExhaustedCall]
    · cases hcb : b.callbackFn_ <;>
        simp [dispatchEvent, hcb, isFailedCall]
    · cases hcb : b.callbackFn_ <;> simp [dispatchEvent, hcb]
    · intro c hmem
      cases hcb : b.callbackFn_ <;> simp [dispatchEvent, hcb] at hmem
      exact hmem
  · intro hmem
    exact dispatchTrace_exhausted_of_end b evs hok hmem hc
  · exact dispatchTrace_failed_le_one b evs hok

/-- Witness for `cursor_dispatch`: all three handlers registered, two
positions delivered, then exhaustion. -/
theorem cursor_dispatch_witness :
    (dispatchTrace (CursorSlots.empty.next.complete.catchFn)
        [CursorEvent.success (some 0), CursorEvent.success (some 1),
         CursorEvent.success (none : Option Nat)]
      : List (CursorCall Nat Nat)).countP (fun c => isExhaustedCall c) = 1 :=
  ((cursor_dispatch (CursorSlots.empty.next.complete.catchFn)
    [CursorEvent.success (some 0), CursorEvent.success (some 1),
     CursorEvent.success (none : Option Nat)]
    (by decide) (by decide)).2.1 (by decide)).1

/-! ## The transaction executor and the timeout race

`PromisedDB.transaction` (current version, lines 491-527) creates, per
invocation, the closure state

  let timeoutID: number | undefined;
  let timedOut = false;

opens the engine transaction `tr`, installs

  tr.onabort    = () => \x7b cancelTimeout();
                         reject(timedOut ? TimeoutError : tr.error); \x7d
  tr.oncomplete = () => \x7b cancelTimeout(); resolve(result); \x7d

gives the body a context whose `timeout(ms)` runs

  timeoutID = setTimeout(() => \x7b timeoutID = undefined; timedOut = true;
                                 tr.abort(); \x7d, ms)

and `cancelTimeout` clears `timeoutID` (if set) via `clearTimeout`.

The machine below models one such invocation.  The state carries

* the host timer environment: ids of currently armed timers plus a
  fresh-id counter (`setTimeout` arms a fresh timer, `clearTimeout`
  disarms the given one);
* the closure variables `timeoutID` and `timedOut`;
* the engine transaction phase (active / completed / aborted);
* the settlement of the result promise (a promise settles at most
  once; later settles are ignored).

Events are the points where control re-enters this closure: the body
invoking `timeout(ms)`, an armed timer expiring, and the engine
delivering the terminal transaction event (complete, or abort — either
requested explicitly via `tr.abort()` or caused by a scope-fatal
operation failure, distinguished by `tr.error` being null or the
failing error).  The handler each event runs is translated statement by
statement.  Real time is abstracted: a timer expiring before the scope
finishes is the `fire` event occurring while the phase is active. -/

/-- Engine transaction phase. -/
inductive TxPhase where
  | active
  | completed
  | aborted
deriving DecidableEq

/-- The rejection value passed to `reject` in `tr.onabort`:
`timedOut ? new DOMException(…, "TimeoutError") : tr.error`.
`abortError` is a null `tr.error` (explicit `tr.abort()`);
`engineError e` is a non-null `tr.error` from a scope-fatal operation
failure. -/
inductive TxReject where
  | timeoutError
  | abortError
  | engineError (e : Nat)
deriving DecidableEq

/-- Settlement of the result promise. -/
inductive TxSettle where
  | resolved
  | rejected (r : TxReject)
deriving DecidableEq

/-- State of one `transaction(...)` invocation: host timers, the
closure variables, the engine phase and the promise settlement. -/
structure TxState where
  nextId : Nat
  armed : List Nat
  timeoutID : Option Nat
  timedOut : Bool
  phase : TxPhase
  settled : Option TxSettle
deriving DecidableEq

/-- State at the start of the invocation: no timer armed,
`timeoutID = undefined`, `timedOut = false`, transaction active,
promise pending. -/
def initTx : TxState :=
  { nextId := 0, armed := [], timeoutID := none, timedOut := false,
    phase := .active, settled := none }

/-- Events that re-enter the closure. -/
inductive TxEvent where
  | callTimeout (ms : Nat)
  | fire (i : Nat)
  | complete
  | abortExplicit
  | engineFail (e : Nat)
deriving DecidableEq

/-- A promise settles at most once; a second resolve/reject is a no-op. -/
def settleWith (r : TxSettle) (s : TxState) : TxState :=
  match s.settled with
  | none => { s with settled := some r }
  | some _ => s

/-- `cancelTimeout()`: if `timeoutID` is set, `clearTimeout(timeoutID)`
and reset it to `undefined`.  Only the timer currently tracked by
`timeoutID` is disarmed. -/
def cancelTimeout (s : TxState) : TxState :=
  match s.timeoutID with
  | none => s
  | some j => { s with armed := s.armed.erase j, timeoutID := none }

/-- The value rejected in `tr.onabort`:
`timedOut ? TimeoutError : tr.error` (with `tr.error` null for an
explicit abort). -/
def rejectReason (timedOut : Bool) (trError : Option Nat) : TxReject :=
  if timedOut then .timeoutError
  else
    match trError with
    | some e => .engineError e
    | none => .abortError

/-- The `tr.onabort` handler, for the engine abort carrying `tr.error`:
`cancelTimeout(); reject(timedOut ? TimeoutError : tr.error)`; the
engine phase becomes aborted. -/
def onAbort (trError : Option Nat) (s : TxState) : TxState :=
  settleWith (.rejected (rejectReason s.timedOut trError))
    { cancelTimeout s with phase := .aborted }

/-- The state transition each event causes, translating the handler the
event runs:

* `callTimeout ms`: `timeoutID = setTimeout(cb, ms)` — a fresh timer is
  armed and `timeoutID` overwritten with its handle (nothing disarms a
  previously armed timer);
* `fire i`: the host disarms the expiring timer and runs its callback
  `timeoutID = undefined; timedOut = true; tr.abort()`; if the
  transaction is still active the abort goes through and `tr.onabort`
  runs, otherwise `tr.abort()` throws `InvalidStateError` inside the
  timer callback and nothing further happens;
* `complete`: `tr.oncomplete` — `cancelTimeout(); resolve(result)`;
* `abortExplicit`: `tr.onabort` with `tr.error` null;
* `engineFail e`: `tr.onabort` with `tr.error = e`. -/
def step (s : TxState) : TxEvent → TxState
  | .callTimeout _ =>
    { s with armed := s.nextId :: s.armed, timeoutID := some s.nextId,
             nextId := s.nextId + 1 }
  | .fire i =>
    let s1 := { s with armed := s.armed.erase i, timeoutID := none,
                       timedOut := true }
    if s.phase = .active then onAbort none s1 else s1
  | .complete =>
    settleWith .resolved { cancelTimeout s with phase := .completed }
  | .abortExplicit => onAbort none s
  | .engineFail e => onAbort (some e) s

/-- Which events the host/engine can deliver in a state: the body calls
`timeout` only while the scope is live (spec 4.3); the host fires only
armed timers; the engine delivers exactly one terminal transaction
event, while the transaction is active. -/
def enabled (s : TxState) : TxEvent → Bool
  | .callTimeout _ => s.phase == .active
  | .fire i => s.armed.contains i
  | .complete => s.phase == .active
  | .abortExplicit => s.phase == .active
  | .engineFail _ => s.phase == .active

/-- Run a sequence of events. -/
def runTx (s : TxState) : List TxEvent → TxState
  | [] => s
  | e :: es => runTx (step s e) es

/-- An event sequence the host can deliver from `s`: each event is
enabled when it occurs. -/
def ValidTx (s : TxState) : List TxEvent → Bool
  | [] => true
  | e :: es => enabled s e && ValidTx (step s e) es

theorem runTx_append (s : TxState) (p q : List TxEvent) :
    runTx s (p ++ q) = runTx (runTx s p) q := by
  induction p generalizing s with
  | nil => rfl
  | cons e es ih => simp [runTx, ih]

theorem validTx_append_left (s : TxState) (p q : List TxEvent)
    (h : ValidTx s (p ++ q) = true) : ValidTx s p = true := by
  induction p generalizing s with
  | nil => rfl
  | cons e es ih =>
    simp only [List.cons_append, ValidTx, Bool.and_eq_true] at h ⊢
    exact ⟨h.1, ih (step s e) h.2⟩

theorem settleWith_settled_of_some (r : TxSettle) (s : TxState) (x : TxSettle)
    (h : s.settled = some x) : (settleWith r s).settled = some x := by
  simp [settleWith, h]

theorem cancelTimeout_settled (s : TxState) :
    (cancelTimeout s).settled = s.settled := by
  unfold cancelTimeout
  cases s.timeoutID <;> rfl

theorem cancelTimeout_phase (s : TxState) :
    (cancelTimeout s).phase = s.phase := by
  unfold cancelTimeout
  cases s.timeoutID <;> rfl

theorem cancelTimeout_timedOut (s : TxState) :
    (cancelTimeout s).timedOut = s.timedOut := by
  unfold cancelTimeout
  cases s.timeoutID <;> rfl

/-- Once settled, the promise keeps its settlement across any step. -/
theorem step_settled_mono (s : TxState) (e : TxEvent) (x : TxSettle)
    (h : s.settled = some x) : (step s e).settled = some x := by
  cases e with
  | callTimeout ms => exact h
  | fire i =>
    simp only [step]
    by_cases hp : s.phase = .active
    · rw [if_pos hp]
      unfold onAbort
      apply settleWith_settled_of_some
      rw [cancelTimeout_settled]
      exact h
    · rw [if_neg hp]
      exact h
  | complete =>
    simp only [step]
    apply settleWith_settled_of_some
    rw [cancelTimeout_settled]
    exact h
  | abortExplicit =>
    unfold step onAbort
    apply settleWith_settled_of_some
    rw [cancelTimeout_settled]
    exact h
  | engineFail err =>
    unfold step onAbort
    apply settleWith_settled_of_some
    rw [cancelTimeout_settled]
    exact h

theorem runTx_settled_mono (s : TxState) (evs : List TxEvent) (x : TxSettle)
    (h : s.settled = some x) : (runTx s evs).settled = some x := by
  induction evs generalizing s with
  | nil => exact h
  | cons e es ih => exact ih (step s e) (step_settled_mono s e x h)

/-- Invariant: while the transaction is active the promise is pending. -/
def PendingInv (s : TxState) : Prop :=
  s.phase = .active → s.settled = none

/-- Invariant: while the transaction is active, `timedOut` is false
(the timer callback that sets it also aborts the transaction). -/
def NotTimedOutInv (s : TxState) : Prop :=
  s.phase = .active → s.timedOut = false

theorem step_fire_active (s : TxState) (i : Nat) (h : s.phase = .active) :
    step s (.fire i) = onAbort none
      { s with armed := s.armed.erase i, timeoutID := none,
               timedOut := true } := by
  simp [step, if_pos h]

theorem step_fire_inactive (s : TxState) (i : Nat) (h : s.phase ≠ .active) :
    step s (.fire i)
      = { s with armed := s.armed.erase i, timeoutID := none,
                 timedOut := true } := by
  simp [step, if_neg h]

theorem settleWith_phase (r : TxSettle) (s : TxState) :
    (settleWith r s).phase = s.phase := by
  unfold settleWith
  cases s.settled <;> rfl

theorem onAbort_phase (trError : Option Nat) (s : TxState) :
    (onAbort trError s).phase = .aborted := by
  unfold onAbort
  rw [settleWith_phase]

theorem step_preserves_pending (s : TxState) (e : TxEvent)
    (h : PendingInv s) : PendingInv (step s e) := by
  intro hp
  cases e with
  | callTimeout ms => exact h hp
  | fire i =>
    by_cases hact : s.phase = .active
    · rw [step_fire_active s i hact, onAbort_phase] at hp
      exact absurd hp (by decide)
    · rw [step_fire_inactive s i hact] at hp ⊢
      exact h hp
  | complete =>
    simp only [step] at hp
    rw [settleWith_phase] at hp
    simp at hp
  | abortExplicit =>
    simp only [step] at hp
    rw [onAbort_phase] at hp
    exact absurd hp (by decide)
  | engineFail err =>
    simp only [step] at hp
    rw [onAbort_phase] at hp
    exact absurd hp (by decide)

theorem step_preserves_notTimedOut (s : TxState) (e : TxEvent)
    (h : NotTimedOutInv s) : NotTimedOutInv (step s e) := by
  intro hp
  cases e with
  | callTimeout ms => exact h hp
  | fire i =>
    by_cases hact : s.phase = .active
    · rw [step_fire_active s i hact, onAbort_phase] at hp
      exact absurd hp (by decide)
    · rw [step_fire_inactive s i hact] at hp
      exact absurd hp hact
  | complete =>
    simp only [step] at hp
    rw [settleWith_phase] at hp
    simp at hp
  | abortExplicit =>
    simp only [step] at hp
    rw [onAbort_phase] at hp
    exact absurd hp (by decide)
  | engineFail err =>
    simp only [step] at hp
    rw [onAbort_phase] at hp
    exact absurd hp (by decide)

theorem runTx_preserves_pending (s : TxState) (evs : List TxEvent)
    (h : PendingInv s) : PendingInv (runTx s evs) := by
  induction evs generalizing s with
  | nil => exact h
  | cons e es ih => exact ih (step s e) (step_preserves_pending s e h)

theorem runTx_preserves_notTimedOut (s : TxState) (evs : List TxEvent)
    (h : NotTimedOutInv s) : NotTimedOutInv (runTx s evs) := by
  induction evs generalizing s with
  | nil => exact h
  | cons e es ih => exact ih (step s e) (step_preserves_notTimedOut s e h)

theorem settleWith_armed (r : TxSettle) (s : TxState) :
    (settleWith r s).armed = s.armed := by
  unfold settleWith
  cases s.settled <;> rfl

theorem settleWith_timeoutID (r : TxSettle) (s : TxState) :
    (settleWith r s).timeoutID = s.timeoutID := by
  unfold settleWith
  cases s.settled <;> rfl

theorem settleWith_nextId (r : TxSettle) (s : TxState) :
    (settleWith r s).nextId = s.nextId := by
  unfold settleWith
  cases s.settled <;> rfl

theorem cancelTimeout_timeoutID (s : TxState) :
    (cancelTimeout s).timeoutID = none := by
  cases h : s.timeoutID <;> simp [cancelTimeout, h]

theorem cancelTimeout_nextId (s : TxState) :
    (cancelTimeout s).nextId = s.nextId := by
  cases h : s.timeoutID <;> simp [cancelTimeout, h]

theorem cancelTimeout_armed (s : TxState) :
    (cancelTimeout s).armed
      = match s.timeoutID with
        | none => s.armed
        | some j => s.armed.erase j := by
  cases h : s.timeoutID <;> simp [cancelTimeout, h]

theorem settleWith_settled_none (r : TxSettle) (s : TxState)
    (h : s.settled = none) : (settleWith r s).settled = some r := by
  simp [settleWith, h]

theorem onAbort_settled_pending (trError : Option Nat) (s : TxState)
    (h : s.settled = none) :
    (onAbort trError s).settled
      = some (.rejected (rejectReason s.timedOut trError)) := by
  unfold onAbort
  apply settleWith_settled_none
  simp only
  rw [cancelTimeout_settled]
  exact h

theorem onAbort_armed (trError : Option Nat) (s : TxState) :
    (onAbort trError s).armed = (cancelTimeout s).armed := by
  unfold onAbort
  rw [settleWith_armed]

theorem onAbort_timeoutID (trError : Option Nat) (s : TxState) :
    (onAbort trError s).timeoutID = none := by
  unfold onAbort
  rw [settleWith_timeoutID]
  simp only
  exact cancelTimeout_timeoutID s

theorem onAbort_nextId (trError : Option Nat) (s : TxState) :
    (onAbort trError s).nextId = s.nextId := by
  unfold onAbort
  rw [settleWith_nextId]
  simp only
  exact cancelTimeout_nextId s

theorem onAbort_settled_ne_resolved (trError : Option Nat) (s : TxState)
    (h : s.settled ≠ some .resolved) :
    (onAbort trError s).settled ≠ some .resolved := by
  cases hx : s.settled with
  | none =>
    rw [onAbort_settled_pending trError s hx]
    simp
  | some x =>
    have hs : (onAbort trError s).settled = some x := by
      unfold onAbort
      apply settleWith_settled_of_some
      simp only
      rw [cancelTimeout_settled]
      exact hx
    rw [hs]
    rw [hx] at h
    exact h

/-- The promise can only become resolved through the `complete` event. -/
theorem step_not_resolved (s : TxState) (e : TxEvent)
    (hne : e ≠ TxEvent.complete) (h : s.settled ≠ some .resolved) :
    (step s e).settled ≠ some .resolved := by
  cases e with
  | callTimeout ms => exact h
  | fire i =>
    by_cases hact : s.phase = .active
    · rw [step_fire_active s i hact]
      exact onAbort_settled_ne_resolved _ _ h
    · rw [step_fire_inactive s i hact]
      exact h
  | complete => exact absurd rfl hne
  | abortExplicit => exact onAbort_settled_ne_resolved _ _ h
  | engineFail err => exact onAbort_settled_ne_resolved _ _ h

theorem runTx_not_resolved (evs : List TxEvent) (s : TxState)
    (hnc : TxEvent.complete ∉ evs) (h : s.settled ≠ some .resolved) :
    (runTx s evs).settled ≠ some .resolved := by
  induction evs generalizing s with
  | nil => exact h
  | cons e es ih =>
    have hne : e ≠ TxEvent.complete := fun he => hnc (he ▸ List.mem_cons_self e es)
    have hnc2 : TxEvent.complete ∉ es := fun hm => hnc (List.mem_cons_of_mem e hm)
    exact ih (step s e) hnc2 (step_not_resolved s e hne h)

/-- An enabled `complete` event settles the pending promise with the
resolution (`tr.oncomplete` runs `cancelTimeout(); resolve(result)`). -/
theorem step_complete_settled (s : TxState) (hact : s.phase = .active)
    (hpend : PendingInv s) :
    (step s TxEvent.complete).settled = some .resolved := by
  simp only [step]
  apply settleWith_settled_none
  simp only
  rw [cancelTimeout_settled]
  exact hpend hact

theorem runTx_resolved_of_complete (evs : List TxEvent) (s : TxState)
    (hv : ValidTx s evs = true) (hp : PendingInv s)
    (hm : TxEvent.complete ∈ evs) :
    (runTx s evs).settled = some .resolved := by
  induction evs generalizing s with
  | nil => simp at hm
  | cons e es ih =>
    simp only [ValidTx, Bool.and_eq_true] at hv
    by_cases he : e = TxEvent.complete
    · subst he
      have hact : s.phase = .active := by
        have h1 := hv.1
        simp only [enabled, beq_iff_eq] at h1
        exact h1
      have h2 : (step s TxEvent.complete).settled = some .resolved :=
        step_complete_settled s hact hp
      exact runTx_settled_mono (step s TxEvent.complete) es _ h2
    · have hm2 : TxEvent.complete ∈ es := by
        rcases List.mem_cons.mp hm with h1 | h1
        · exact absurd h1.symm he
        · exact h1
      exact ih (step s e) hv.2 (step_preserves_pending s e hp) hm2

/-- C1: for a transaction invocation, over any event sequence the
host/engine can deliver, the result promise is resolved at the end if
and only if the engine delivered the commit (`complete`) event; and
along any prefix of the sequence in which `complete` has not yet
occurred the promise is not resolved — even though the body's return
value (`result`) was captured when the body ran at the very start, it
is only released by `tr.oncomplete`. -/
theorem transaction_resolves_iff_commit (evs : List TxEvent)
    (hv : ValidTx initTx evs = true) :
    ((runTx initTx evs).settled = some .resolved ↔ TxEvent.complete ∈ evs)
    ∧ ∀ p q, evs = p ++ q → TxEvent.complete ∉ p →
        (runTx initTx p).settled ≠ some .resolved := by
  constructor
  · constructor
    · intro hres
      by_contra hnc
      exact runTx_not_resolved evs initTx hnc (by simp [initTx]) hres
    · intro hm
      exact runTx_resolved_of_complete evs initTx hv (fun _ => rfl) hm
  · intro p q hpq hnc
    exact runTx_not_resolved p initTx hnc (by simp [initTx])

/-- Witness for `transaction_resolves_iff_commit`: the engine delivers
commit, and the promise resolves. -/
theorem transaction_resolves_iff_commit_witness :
    (runTx initTx [TxEvent.complete]).settled = some TxSettle.resolved :=
  ((transaction_resolves_iff_commit [TxEvent.complete] (by decide)).1).mpr
    (by decide)

/-- C7: rejection tagging of an aborting transaction.  From any
reachable state in which the scope is still active: an explicit abort
(`tr.abort()` from the body, null `tr.error`) rejects the promise with
the plain abort reason; a scope-fatal operation failure rejects it with
that engine error; an armed timer expiring rejects it with the timeout
error.  The three tags are pairwise distinct, so the abort source is
always determinable from the rejection reason. -/
theorem abort_reject_tagging (p : List TxEvent)
    (hv : ValidTx initTx p = true)
    (hact : (runTx initTx p).phase = .active) :
    (step (runTx initTx p) TxEvent.abortExplicit).settled
        = some (.rejected .abortError)
    ∧ (∀ e, (step (runTx initTx p) (TxEvent.engineFail e)).settled
        = some (.rejected (.engineError e)))
    ∧ (∀ i, i ∈ (runTx initTx p).armed →
        (step (runTx initTx p) (TxEvent.fire i)).settled
          = some (.rejected .timeoutError))
    ∧ (TxReject.abortError ≠ TxReject.timeoutError
        ∧ ∀ e : Nat, TxReject.engineError e ≠ TxReject.timeoutError
            ∧ TxReject.engineError e ≠ TxReject.abortError) := by
  have hpend : (runTx initTx p).settled = none :=
    runTx_preserves_pending initTx p (fun _ => rfl) hact
  have hntd : (runTx initTx p).timedOut = false :=
    runTx_preserves_notTimedOut initTx p (fun _ => rfl) hact
  refine ⟨?_, ?_, ?_, ?_⟩
  · rw [show step (runTx initTx p) TxEvent.abortExplicit
        = onAbort none (runTx initTx p) from rfl,
      onAbort_settled_pending none _ hpend, hntd]
    rfl
  · intro e
    rw [show step (runTx initTx p) (TxEvent.engineFail e)
        = onAbort (some e) (runTx initTx p) from rfl,
      onAbort_settled_pending (some e) _ hpend, hntd]
    rfl
  · intro i _
    rw [step_fire_active (runTx initTx p) i hact,
      onAbort_settled_pending none _ (by simpa using hpend)]
    rfl
  · exact ⟨by decide, fun e => ⟨by simp, by simp⟩⟩

/-- Witness for `abort_reject_tagging`: an explicit abort right after
the body runs is rejected with the plain abort tag. -/
theorem abort_reject_tagging_witness :
    (step (runTx initTx []) TxEvent.abortExplicit).settled
      = some (TxSettle.rejected TxReject.abortError) :=
  (abort_reject_tagging [] (by decide) (by decide)).1

/-- Invariant: the armed timer ids are duplicate-free and below the
fresh-id counter. -/
def ArmedInv (s : TxState) : Prop :=
  s.armed.Nodup ∧ ∀ j ∈ s.armed, j < s.nextId

theorem armedInv_erase (s : TxState) (h : ArmedInv s) (i : Nat) :
    (s.armed.erase i).Nodup ∧ ∀ j ∈ s.armed.erase i, j < s.nextId :=
  ⟨h.1.erase i, fun j hj => h.2 j (List.mem_of_mem_erase hj)⟩

theorem cancelTimeout_armedInv (s : TxState) (h : ArmedInv s) :
    ArmedInv (cancelTimeout s) := by
  cases ht : s.timeoutID with
  | none =>
    simp only [cancelTimeout, ht]
    exact h
  | some j =>
    simp only [cancelTimeout, ht]
    exact armedInv_erase s h j

theorem step_preserves_armedInv (s : TxState) (e : TxEvent)
    (h : ArmedInv s) : ArmedInv (step s e) := by
  cases e with
  | callTimeout ms =>
    constructor
    · show (s.nextId :: s.armed).Nodup
      refine List.nodup_cons.mpr ⟨?_, h.1⟩
      intro hmem
      exact absurd (h.2 s.nextId hmem) (by omega)
    · intro j hj
      show j < s.nextId + 1
      have hj2 : j ∈ s.nextId :: s.armed := hj
      rcases List.mem_cons.mp hj2 with h1 | h1
      · omega
      · have h3 := h.2 j h1
        omega
  | fire i =>
    by_cases hact : s.phase = .active
    · rw [step_fire_active s i hact]
      constructor
      · rw [onAbort_armed]
        simp only [cancelTimeout]
        exact (armedInv_erase s h i).1
      · intro j hj
        rw [onAbort_armed] at hj
        simp only [cancelTimeout] at hj
        rw [onAbort_nextId]
        exact (armedInv_erase s h i).2 j hj
    · rw [step_fire_inactive s i hact]
      exact armedInv_erase s h i
  | complete =>
    constructor
    · rw [show step s TxEvent.complete
          = settleWith .resolved { cancelTimeout s with phase := .completed }
          from rfl, settleWith_armed]
      exact (cancelTimeout_armedInv s h).1
    · intro j hj
      rw [show step s TxEvent.complete
          = settleWith .resolved { cancelTimeout s with phase := .completed }
          from rfl, settleWith_armed] at hj
      rw [show step s TxEvent.complete
          = settleWith .resolved { cancelTimeout s with phase := .completed }
          from rfl, settleWith_nextId]
      exact (cancelTimeout_armedInv s h).2 j hj
  | abortExplicit =>
    constructor
    · rw [show step s TxEvent.abortExplicit = onAbort none s from rfl,
        onAbort_armed]
      exact (cancelTimeout_armedInv s h).1
    · intro j hj
      rw [show step s TxEvent.abortExplicit = onAbort none s from rfl,
        onAbort_armed] at hj
      rw [show step s TxEvent.abortExplicit = onAbort none s from rfl,
        onAbort_nextId]
      have h2 := (cancelTimeout_armedInv s h).2 j hj
      rw [cancelTimeout_nextId] at h2
      exact h2
  | engineFail err =>
    constructor
    · rw [show step s (TxEvent.engineFail err) = onAbort (some err) s from rfl,
        onAbort_armed]
      exact (cancelTimeout_armedInv s h).1
    · intro j hj
      rw [show step s (TxEvent.engineFail err) = onAbort (some err) s from rfl,
        onAbort_armed] at hj
      rw [show step s (TxEvent.engineFail err) = onAbort (some err) s from rfl,
        onAbort_nextId]
      have h2 := (cancelTimeout_armedInv s h).2 j hj
      rw [cancelTimeout_nextId] at h2
      exact h2

theorem runTx_preserves_armedInv (s : TxState) (evs : List TxEvent)
    (h : ArmedInv s) : ArmedInv (runTx s evs) := by
  induction evs generalizing s with
  | nil => exact h
  | cons e es ih => exact ih (step s e) (step_preserves_armedInv s e h)

/-- C4: from any reachable state in which a timer `i` is armed and the
scope has not yet reached a terminal state, its expiry (the `fire`
event, running `timeoutID = undefined; timedOut = true; tr.abort()` and
thereby `tr.onabort`) clears the timer, aborts the scope via the
engine, and rejects the result promise with the timeout tag — not with
the generic abort reason. -/
theorem timeout_expiry_aborts (p : List TxEvent) (i : Nat)
    (hv : ValidTx initTx p = true)
    (hact : (runTx initTx p).phase = .active)
    (harm : i ∈ (runTx initTx p).armed) :
    i ∉ (step (runTx initTx p) (TxEvent.fire i)).armed
    ∧ (step (runTx initTx p) (TxEvent.fire i)).timeoutID = none
    ∧ (step (runTx initTx p) (TxEvent.fire i)).phase = .aborted
    ∧ (step (runTx initTx p) (TxEvent.fire i)).settled
        = some (.rejected .timeoutError)
    ∧ TxReject.timeoutError ≠ TxReject.abortError := by
  have hinv : ArmedInv (runTx initTx p) :=
    runTx_preserves_armedInv initTx p ⟨List.nodup_nil, by simp [initTx]⟩
  have hpend : (runTx initTx p).settled = none :=
    runTx_preserves_pending initTx p (fun _ => rfl) hact
  refine ⟨?_, ?_, ?_, ?_, by decide⟩
  · rw [step_fire_active (runTx initTx p) i hact, onAbort_armed]
    simp only [cancelTimeout]
    exact hinv.1.not_mem_erase
  · rw [step_fire_active (runTx initTx p) i hact, onAbort_timeoutID]
  · rw [step_fire_active (runTx initTx p) i hact, onAbort_phase]
  · rw [step_fire_active (runTx initTx p) i hact,
      onAbort_settled_pending none _ (by simpa using hpend)]
    rfl

/-- Witness for `timeout_expiry_aborts`: arm one timer, let it expire. -/
theorem timeout_expiry_aborts_witness :
    (step (runTx initTx [TxEvent.callTimeout 5]) (TxEvent.fire 0)).settled
      = some (TxSettle.rejected TxReject.timeoutError) :=
  (timeout_expiry_aborts [TxEvent.callTimeout 5] 0 (by decide) (by decide)
    (by decide)).2.2.2.1

/-- Number of `timeout(ms)` calls in an event sequence. -/
def countCalls (evs : List TxEvent) : Nat :=
  evs.countP (fun e => match e with
    | .callTimeout _ => true
    | _ => false)

/-- A terminal transaction event: the engine commit, or the abort event
from either an explicit `tr.abort()` or a scope-fatal failure. -/
def isTerminalTx : TxEvent → Bool
  | .complete => true
  | .abortExplicit => true
  | .engineFail _ => true
  | _ => false

/-- Single-timer shape: either no timer armed and no tracked handle, or
exactly one armed timer, tracked by `timeoutID`.  This shape is kept as
long as at most one `timeout` call is made. -/
def SingleTimerInv (s : TxState) : Prop :=
  (s.armed = [] ∧ s.timeoutID = none)
  ∨ ∃ j, s.armed = [j] ∧ s.timeoutID = some j

theorem cancelTimeout_single (s : TxState) (hs : SingleTimerInv s) :
    (cancelTimeout s).armed = [] ∧ (cancelTimeout s).timeoutID = none := by
  rcases hs with ⟨ha, ht⟩ | ⟨j, ha, ht⟩
  · simp [cancelTimeout, ht, ha]
  · simp [cancelTimeout, ht, ha]

theorem runTx_singleTimer (evs : List TxEvent) (s : TxState)
    (hv : ValidTx s evs = true)
    (hb : countCalls evs + s.armed.length ≤ 1)
    (hs : SingleTimerInv s) : SingleTimerInv (runTx s evs) := by
  induction evs generalizing s with
  | nil => exact hs
  | cons e es ih =>
    simp only [ValidTx, Bool.and_eq_true] at hv
    cases e with
    | callTimeout ms =>
      have hc : countCalls (TxEvent.callTimeout ms :: es) = countCalls es + 1 := by
        simp [countCalls]
      rw [hc] at hb
      have ha : s.armed = [] := by
        cases harm : s.armed with
        | nil => rfl
        | cons x xs =>
          rw [harm] at hb
          simp at hb
          omega
      refine ih (step s (.callTimeout ms)) hv.2 ?_ ?_
      · show countCalls es + (s.nextId :: s.armed).length ≤ 1
        rw [ha]
        simp
        omega
      · right
        exact ⟨s.nextId, by rw [show (step s (.callTimeout ms)).armed
            = s.nextId :: s.armed from rfl, ha], rfl⟩
    | fire i =>
      have hc : countCalls (TxEvent.fire i :: es) = countCalls es := by
        simp [countCalls]
      rw [hc] at hb
      have hmem : i ∈ s.armed := by
        have h1 := hv.1
        simp only [enabled] at h1
        exact List.elem_iff.mp h1
      rcases hs with ⟨ha, ht⟩ | ⟨j, ha, ht⟩
      · rw [ha] at hmem
        simp at hmem
      · have hij : i = j := by
          rw [ha] at hmem
          simpa using hmem
        subst hij
        have harm2 : s.armed.erase i = [] := by
          rw [ha, List.erase_cons_head]
        have hstep : SingleTimerInv (step s (.fire i)) := by
          by_cases hact : s.phase = .active
          · left
            rw [step_fire_active s i hact]
            constructor
            · rw [onAbort_armed]
              simp only [cancelTimeout]
              exact harm2
            · exact onAbort_timeoutID _ _
          · left
            rw [step_fire_inactive s i hact]
            exact ⟨harm2, rfl⟩
        refine ih (step s (.fire i)) hv.2 ?_ hstep
        rcases hstep with ⟨ha2, _⟩ | ⟨k, ha2, _⟩
        · rw [ha2]
          simp
          omega
        · rw [ha2] at *
          rw [ha] at hb
          simp at hb ⊢
          omega
    | complete =>
      have hc : countCalls (TxEvent.complete :: es) = countCalls es := by
        simp [countCalls]
      rw [hc] at hb
      have hcs := cancelTimeout_single s hs
      have hstep : SingleTimerInv (step s .complete) := by
        left
        constructor
        · rw [show step s TxEvent.complete = settleWith .resolved
              { cancelTimeout s with phase := .completed } from rfl,
            settleWith_armed]
          exact hcs.1
        · rw [show step s TxEvent.complete = settleWith .resolved
              { cancelTimeout s with phase := .completed } from rfl,
            settleWith_timeoutID]
          exact hcs.2
      refine ih (step s .complete) hv.2 ?_ hstep
      rcases hstep with ⟨ha2, _⟩ | ⟨k, ha2, _⟩
      · rw [ha2]
        simp
        omega
      · rw [show step s TxEvent.complete = settleWith .resolved
            { cancelTimeout s with phase := .completed } from rfl,
          settleWith_armed] at ha2
        rw [hcs.1] at ha2
        simp at ha2
    | abortExplicit =>
      have hc : countCalls (TxEvent.abortExplicit :: es) = countCalls es := by
        simp [countCalls]
      rw [hc] at hb
      have hcs := cancelTimeout_single s hs
      have hstep : SingleTimerInv (step s .abortExplicit) := by
        left
        constructor
        · rw [show step s TxEvent.abortExplicit = onAbort none s from rfl,
            onAbort_armed]
          exact hcs.1
        · rw [show step s TxEvent.abortExplicit = onAbort none s from rfl]
          exact onAbort_timeoutID _ _
      refine ih (step s .abortExplicit) hv.2 ?_ hstep
      rcases hstep with ⟨ha2, _⟩ | ⟨k, ha2, _⟩
      · rw [ha2]
        simp
        omega
      · rw [show step s TxEvent.abortExplicit = onAbort none s from rfl,
          onAbort_armed] at ha2
        rw [hcs.1] at ha2
        simp at ha2
    | engineFail err =>
      have hc : countCalls (TxEvent.engineFail err :: es) = countCalls es := by
        simp [countCalls]
      rw [hc] at hb
      have hcs := cancelTimeout_single s hs
      have hstep : SingleTimerInv (step s (.engineFail err)) := by
        left
        constructor
        · rw [show step s (TxEvent.engineFail err) = onAbort (some err) s
              from rfl, onAbort_armed]
          exact hcs.1
        · rw [show step s (TxEvent.engineFail err) = onAbort (some err) s
              from rfl]
          exact onAbort_timeoutID _ _
      refine ih (step s (.engineFail err)) hv.2 ?_ hstep
      rcases hstep with ⟨ha2, _⟩ | ⟨k, ha2, _⟩
      · rw [ha2]
        simp
        omega
      · rw [show step s (TxEvent.engineFail err) = onAbort (some err) s
            from rfl, onAbort_armed] at ha2
        rw [hcs.1] at ha2
        simp at ha2

/-- C5: in a transaction whose body calls `timeout(ms)` at most once,
when the scope reaches any terminal transition (commit, explicit abort,
or scope-fatal failure) the armed timer is cancelled by that
transition's `cancelTimeout()`: afterwards no timer is armed and no
handle is tracked, so no timer expiry event is possible after scope
completion and completion before the deadline never triggers an abort. -/
theorem timer_cancelled_on_terminal (evs : List TxEvent) (t : TxEvent)
    (hv : ValidTx initTx evs = true)
    (hcalls : countCalls evs ≤ 1)
    (ht : isTerminalTx t = true) :
    (step (runTx initTx evs) t).armed = []
    ∧ (step (runTx initTx evs) t).timeoutID = none
    ∧ ∀ i, enabled (step (runTx initTx evs) t) (TxEvent.fire i) = false := by
  have hsingle : SingleTimerInv (runTx initTx evs) :=
    runTx_singleTimer evs initTx hv (by simpa [initTx] using hcalls)
      (Or.inl ⟨rfl, rfl⟩)
  have hcs := cancelTimeout_single (runTx initTx evs) hsingle
  have hmain : (step (runTx initTx evs) t).armed = []
      ∧ (step (runTx initTx evs) t).timeoutID = none := by
    cases t with
    | callTimeout ms => simp [isTerminalTx] at ht
    | fire i => simp [isTerminalTx] at ht
    | complete =>
      constructor
      · rw [show step (runTx initTx evs) TxEvent.complete
            = settleWith .resolved
              { cancelTimeout (runTx initTx evs) with phase := .completed }
            from rfl, settleWith_armed]
        exact hcs.1
      · rw [show step (runTx initTx evs) TxEvent.complete
            = settleWith .resolved
              { cancelTimeout (runTx initTx evs) with phase := .completed }
            from rfl, settleWith_timeoutID]
        exact hcs.2
    | abortExplicit =>
      constructor
      · rw [show step (runTx initTx evs) TxEvent.abortExplicit
            = onAbort none (runTx initTx evs) from rfl, onAbort_armed]
        exact hcs.1
      · rw [show step (runTx initTx evs) TxEvent.abortExplicit
            = onAbort none (runTx initTx evs) from rfl]
        exact onAbort_timeoutID _ _
    | engineFail err =>
      constructor
      · rw [show step (runTx initTx evs) (TxEvent.engineFail err)
            = onAbort (some err) (runTx initTx evs) from rfl, onAbort_armed]
        exact hcs.1
      · rw [show step (runTx initTx evs) (TxEvent.engineFail err)
            = onAbort (some err) (runTx initTx evs) from rfl]
        exact onAbort_timeoutID _ _
  refine ⟨hmain.1, hmain.2, ?_⟩
  intro i
  simp only [enabled]
  rw [hmain.1]
  rfl

/-- Witness for `timer_cancelled_on_terminal`: one `timeout` call, then
the engine commits before expiry. -/
theorem timer_cancelled_on_terminal_witness :
    (step (runTx initTx [TxEvent.callTimeout 100]) TxEvent.complete).armed
      = [] :=
  (timer_cancelled_on_terminal [TxEvent.callTimeout 100] TxEvent.complete
    (by decide) (by decide) (by decide)).1

/-- C3, counterexample: the claim that each re-invocation of
`timeout(ms)` cancels the previously armed timer — so that at most one
timer is ever armed for the scope — is false on the code: `timeout`
runs `timeoutID = setTimeout(...)` without any `clearTimeout`, so after
two calls, `timeout(5)` then `timeout(7)`, two timers are armed
simultaneously. -/
theorem timeout_rearm_counterexample :
    ValidTx initTx [TxEvent.callTimeout 5, TxEvent.callTimeout 7] = true
    ∧ (runTx initTx
        [TxEvent.callTimeout 5, TxEvent.callTimeout 7]).armed.length = 2 := by
  decide

/-- C3, amended: each re-invocation of `timeout(ms)` arms a fresh timer
and overwrites the tracked handle `timeoutID` with the new timer's
handle, but does not cancel the previously armed timer — every timer
armed before the call stays armed. -/
theorem timeout_rearm_overwrites (s : TxState) (ms : Nat) :
    (step s (TxEvent.callTimeout ms)).armed = s.nextId :: s.armed
    ∧ (step s (TxEvent.callTimeout ms)).timeoutID = some s.nextId
    ∧ ∀ j ∈ s.armed, j ∈ (step s (TxEvent.callTimeout ms)).armed := by
  refine ⟨rfl, rfl, ?_⟩
  intro j hj
  show j ∈ s.nextId :: s.armed
  exact List.mem_cons_of_mem _ hj

/-- Witness for `timeout_rearm_overwrites`: after `timeout(3)`, a
second call `timeout(7)` leaves the first timer (id 0) armed. -/
theorem timeout_rearm_overwrites_witness :
    0 ∈ (step (runTx initTx [TxEvent.callTimeout 3])
          (TxEvent.callTimeout 7)).armed :=
  (timeout_rearm_overwrites (runTx initTx [TxEvent.callTimeout 3]) 7).2.2 0
    (by decide)

end PromisedDB
